import Mathlib

/-!
Verification of the Job_Resume_Match resume-ranking API.

This file gives a shallow embedding of the repository's core pipeline
(`main.py`, `endpoints/extract.py`, `endpoints/score.py`,
`utils/file_extraction.py`) and proves the spec's testable properties
about it.

Modelling conventions:
* A JSON value decoded by `json.loads` is a `JsonValue`; JSON numbers are
  modelled as integers (the API's score domain is the integer range 0-5).
* The LLM client, the PDF/DOCX parsing libraries and `json.loads` are
  external collaborators; their outcome for a given request is passed in
  as data (`Option JsonValue` for a decoded reply, `Except` for a
  fallible extraction), exactly at the boundary where the repository's
  own logic starts.
* Criteria are modelled as strings, which is the `Criterion` type of the
  spec's data model, for the scoring pipeline; the extraction endpoint
  stores whatever JSON list the model returned, so its store slot holds
  `List JsonValue`.
* Exceptions raised by Python code are modelled with `Except`; the
  `try/except` blocks of the endpoints become the corresponding error
  constructors, each carrying what the HTTP error observably carries.
-/

set_option maxHeartbeats 1000000

namespace ResumeAPI

/-- A JSON value as decoded by Python's `json.loads`.  JSON numbers are
modelled as integers: the scoring domain of the API is the integer range
0-5 and no claim concerns fractional values. -/
inductive JsonValue where
  | null
  | bool (b : Bool)
  | int (n : Int)
  | str (s : String)
  | list (elems : List JsonValue)
  | dict (fields : List (String × JsonValue))
deriving Repr

/-- A JSON object (`score_data` in the source): an ordered list of
string-keyed fields, as produced by `json.loads` and then mutated by the
repair pass. -/
abbrev Fields := List (String × JsonValue)

/-- Python `k in d` for a string-keyed dict. -/
def hasKey : Fields → String → Bool
  | [], _ => false
  | kv :: rest, k => if kv.1 = k then true else hasKey rest k

/-- Python `d[k]` / `d.get(k)` for a string-keyed dict: the value bound to
the first matching key. -/
def lookupKey : Fields → String → Option JsonValue
  | [], _ => Option.none
  | kv :: rest, k => if kv.1 = k then some kv.2 else lookupKey rest k

/-- Replace the value bound to an existing key, keeping its position
(Python dict assignment to a present key). -/
def replaceKey : Fields → String → JsonValue → Fields
  | [], _, _ => []
  | kv :: rest, k, v =>
      (if kv.1 = k then (k, v) else kv) :: replaceKey rest k v

/-- Python `d[k] = v`: update in place when the key is present, append a
new binding otherwise. -/
def setKey (d : Fields) (k : String) (v : JsonValue) : Fields :=
  if hasKey d k then replaceKey d k v else d ++ [(k, v)]

/-- Python `str.rfind` over a character list: index of the last
occurrence, `-1` when absent. -/
def pyRfind (cs : List Char) (c : Char) : Int :=
  (cs.foldl (fun acc ch => (if ch = c then acc.2 else acc.1, acc.2 + 1))
    ((-1 : Int), (0 : Int))).1

/-- Root part of Python's `os.path.splitext` (posix
rules): split at the last dot, provided it lies after the last `/` and
the base name does not consist solely of dots up to that point.
`os.path.splitext(filename)[0]` is what the scoring endpoint uses as the
fallback candidate name. -/
def splitext_root (p : String) : String :=
  let cs := p.data
  let sepIndex := pyRfind cs '/'
  let dotIndex := pyRfind cs '.'
  if sepIndex < dotIndex ∧
      ((List.range cs.length).any (fun i =>
        decide (sepIndex < (i : Int)) && decide ((i : Int) < dotIndex) &&
          decide (cs.getD i '.' ≠ '.')) = true) then
    String.mk (cs.take dotIndex.toNat)
  else p

/-- The characters Python's `str.strip()` removes (ASCII whitespace;
the further Unicode space characters it also strips play no role
here). -/
def isPyWhitespace (c : Char) : Bool :=
  c = ' ' ∨ c = '\t' ∨ c = '\n' ∨ c = '\r' ∨ c = '\x0b' ∨ c = '\x0c'

/-- Python `s.strip()`: remove leading and trailing whitespace. -/
def pyStrip (s : String) : String :=
  String.mk
    (((s.data.dropWhile isPyWhitespace).reverse.dropWhile
      isPyWhitespace).reverse)

/-- One step of Python's built-in `sum` over JSON-decoded values:
`acc + v` succeeds for ints and bools (bools are ints in Python) and
raises `TypeError` (here `none`) for every other value. -/
def pyAdd (acc : Int) (v : JsonValue) : Option Int :=
  match v with
  | .int n => some (acc + n)
  | .bool b => some (acc + (if b then 1 else 0))
  | _ => Option.none

/-- Python `sum(vs)` over JSON-decoded values, `none` when Python would
raise `TypeError`. -/
def pySum (vs : List JsonValue) : Option Int :=
  vs.foldl (fun acc v => acc.bind (fun a => pyAdd a v)) (some 0)

/-- Error outcomes of the `/extract-criteria` endpoint. -/
inductive ExtractError where
  /-- HTTP 400: content type other than PDF/DOCX. -/
  | unsupportedFileType
  /-- HTTP 500: text extraction failed. -/
  | extractionFailure
  /-- HTTP 500 `Error processing file: ...`: the LLM reply failed to
  decode as JSON or decoded to a non-list. -/
  | invalidModelOutput
deriving Repr, DecidableEq

/-- Error outcomes of the `/score-resumes` endpoint. -/
inductive ScoreError where
  /-- HTTP 400: no stored criteria. -/
  | noCriteria
  /-- HTTP 400: content type other than PDF/DOCX. -/
  | unsupportedFileType
  /-- HTTP 500 `Failed to extract text ...`: text extraction failed. -/
  | extractionFailure (detail : String)
  /-- HTTP 500 `Error processing resume {filename}: ...`: any exception
  inside the per-resume `try` block (JSON decode failure, wrong reply
  shape, `.strip()` on a non-string, unsummable score values, LLM client
  failure). -/
  | processingError (filename : String)
deriving Repr, DecidableEq

/-- HTTP status code attached to each `ExtractError` in the source. -/
def extractStatusCode : ExtractError → Nat
  | .unsupportedFileType => 400
  | .extractionFailure => 500
  | .invalidModelOutput => 500

/-- HTTP status code attached to each `ScoreError` in the source. -/
def scoreStatusCode : ScoreError → Nat
  | .noCriteria => 400
  | .unsupportedFileType => 400
  | .extractionFailure _ => 500
  | .processingError _ => 500

/-- `extract_text_from_docx` (utils/file_extraction.py, main.py).  The
function first writes the upload to `temp_uploaded.docx`; `doc_parse` is
the outcome of `docx.Document` on that file (the list of paragraph texts,
or the exception it raised).  The second component of the result records
whether `temp_uploaded.docx` still exists when the function returns or
raises: `os.remove` runs only after a successful parse, so a parse
failure leaves the temporary file behind. -/
def extract_text_from_docx (doc_parse : Except String (List String)) :
    Except String String × Bool :=
  match doc_parse with
  | .error e => (.error ("Failed to extract text from DOCX: " ++ e), true)
  | .ok paras =>
      let text := String.intercalate "\n" (paras.filter (fun p => p ≠ ""))
      if text = "" then
        (.error "Failed to extract text from DOCX: No text could be extracted from the DOCX.",
          false)
      else (.ok text, false)

/-- The LLM-reply processing step of `extract_criteria`
(endpoints/extract.py, main.py).  `parsed` is the outcome of
`json.loads` on the fence-stripped reply (`none` when it raised);
`stored_criteria` is the store slot before the call.  Returns the
endpoint result together with the store slot after the call: the slot is
overwritten exactly when the reply decodes to a list. -/
def extract_criteria (parsed : Option JsonValue)
    (stored_criteria : Option (List JsonValue)) :
    Except ExtractError (List JsonValue) × Option (List JsonValue) :=
  match parsed with
  | some (JsonValue.list xs) => (.ok xs, some xs)
  | _ => (.error .invalidModelOutput, stored_criteria)

/-- The `for crit in criteria_list: if crit not in score_data:
score_data[crit] = 0` repair loop of `score_resumes`. -/
def ensureScores (criteria_list : List String) (score_data : Fields) : Fields :=
  criteria_list.foldl
    (fun d crit => if hasKey d crit then d else setKey d crit (JsonValue.int 0))
    score_data

/-- The candidate-name repair of `score_resumes`: `if "Candidate Name"
not in score_data or not score_data["Candidate Name"].strip(): ...`.
When the key is bound to a non-string, `.strip()` raises
`AttributeError` (modelled by `.error ()`), which the surrounding `try`
turns into the per-resume HTTP 500. -/
def repairName (filename : String) (d : Fields) : Except Unit Fields :=
  match lookupKey d "Candidate Name" with
  | Option.none =>
      .ok (setKey d "Candidate Name" (JsonValue.str (splitext_root filename)))
  | some (JsonValue.str s) =>
      if pyStrip s = "" then
        .ok (setKey d "Candidate Name" (JsonValue.str (splitext_root filename)))
      else .ok d
  | some _ => .error ()

/-- The per-resume body of the `try` block of `score_resumes`, from
`json.loads` to `results.append`: decode the reply, insert a `0` score
for every missing criterion, repair the candidate name, recompute
`Total Score` as the Python `sum` of the per-criterion values, and
return the record that is appended.  A decoded reply that is not a dict
always raises before a record is appended (`in`, item assignment or
indexing on a non-dict raises `TypeError`), so every non-dict reply is
the per-resume HTTP 500. -/
def processReply (criteria_list : List String) (filename : String)
    (parsed : Option JsonValue) : Except ScoreError Fields :=
  match parsed with
  | some (JsonValue.dict score_data) =>
      let d1 := ensureScores criteria_list score_data
      match repairName filename d1 with
      | .error _ => .error (.processingError filename)
      | .ok d2 =>
          match pySum (criteria_list.map
              (fun crit => (lookupKey d2 crit).getD (JsonValue.int 0))) with
          | Option.none => .error (.processingError filename)
          | some computed_total =>
              .ok (setKey d2 "Total Score" (JsonValue.int computed_total))
  | _ => .error (.processingError filename)

/-- One uploaded resume, together with the outcome its external
collaborators would produce for it: the text extraction result and the
`json.loads` outcome for the fence-stripped LLM reply. -/
structure ResumeFile where
  filename : String
  content_type : String
  extraction : Except String String
  llmParsed : Option JsonValue
deriving Repr

/-- Observable side effects of a scoring request: text-extraction calls
and LLM calls, in order. -/
inductive Event where
  | extractTextCall (filename : String)
  | llmCall (filename : String)
deriving Repr, DecidableEq

/-- The content types accepted by both endpoints. -/
def supportedType (ct : String) : Bool :=
  ct == "application/pdf" ||
  ct == "application/vnd.openxmlformats-officedocument.wordprocessingml.document" ||
  ct == "application/msword"

/-- The per-resume step of `score_resumes`: content-type dispatch, text
extraction, LLM call, reply processing.  Returns the record (or error)
together with the collaborator calls performed. -/
def processResume (criteria_list : List String) (resume : ResumeFile) :
    Except ScoreError Fields × List Event :=
  if supportedType resume.content_type then
    match resume.extraction with
    | .error detail =>
        (.error (.extractionFailure detail), [.extractTextCall resume.filename])
    | .ok _ =>
        (processReply criteria_list resume.filename resume.llmParsed,
          [.extractTextCall resume.filename, .llmCall resume.filename])
  else (.error .unsupportedFileType, [])

/-- The `for resume in files` loop of `score_resumes`: resumes are
processed strictly in upload order and the first failure aborts the
whole batch (the accumulated records are discarded). -/
def scoreAll (criteria_list : List String) :
    List ResumeFile → Except ScoreError (List Fields) × List Event
  | [] => (.ok [], [])
  | resume :: rest =>
      match processResume criteria_list resume with
      | (.error e, evs) => (.error e, evs)
      | (.ok record, evs) =>
          match scoreAll criteria_list rest with
          | (.error e, evs2) => (.error e, evs ++ evs2)
          | (.ok records, evs2) => (.ok (record :: records), evs ++ evs2)

/-- The tabular result handed to `df.to_csv(stream, index=False)`: the
header (column labels) and one row of cells per record.  Serialization
of the cells to CSV text is done by pandas, an external collaborator. -/
structure CsvTable where
  header : List String
  rows : List (List JsonValue)
deriving Repr

/-- `pd.DataFrame(results, columns=columns)` restricted to what
`to_csv(index=False)` renders: each record contributes one row holding
its value at each column label (`null`, rendered empty, when absent);
there is no index column. -/
def toDataFrame (columns : List String) (results : List Fields) : CsvTable :=
  ⟨columns, results.map (fun r => columns.map
    (fun c => (lookupKey r c).getD JsonValue.null))⟩

/-- The `score_resumes` endpoint (endpoints/score.py, main.py): guard on
the stored criteria (`if not stored_criteria`, which rejects both `None`
and `[]` before any file is touched), score every resume in order, then
build the CSV table with columns `Candidate Name`, the stored criteria
in order, `Total Score`. -/
def score_resumes (stored_criteria : Option (List String))
    (files : List ResumeFile) : Except ScoreError CsvTable × List Event :=
  match stored_criteria with
  | Option.none => (.error .noCriteria, [])
  | some [] => (.error .noCriteria, [])
  | some criteria_list =>
      match scoreAll criteria_list files with
      | (.error e, evs) => (.error e, evs)
      | (.ok results, evs) =>
          (.ok (toDataFrame
            ("Candidate Name" :: (criteria_list ++ ["Total Score"])) results), evs)

/-! ### Dictionary lemmas -/

theorem lookupKey_eq_none_of_hasKey_false {d : Fields} {k : String}
    (h : hasKey d k = false) : lookupKey d k = Option.none := by
  induction d with
  | nil => rfl
  | cons kv rest ih =>
      simp only [hasKey, lookupKey] at *
      split at h
      · simp at h
      · simp_all

theorem hasKey_true_of_lookupKey {d : Fields} {k : String} {v : JsonValue}
    (h : lookupKey d k = some v) : hasKey d k = true := by
  induction d with
  | nil => simp [lookupKey] at h
  | cons kv rest ih =>
      simp only [hasKey, lookupKey] at *
      split at h <;> simp_all

theorem hasKey_false_of_lookupKey_none {d : Fields} {k : String}
    (h : lookupKey d k = Option.none) : hasKey d k = false := by
  induction d with
  | nil => rfl
  | cons kv rest ih =>
      simp only [lookupKey, hasKey] at *
      split at h
      · cases h
      · simp_all

theorem hasKey_append (d1 d2 : Fields) (k : String) :
    hasKey (d1 ++ d2) k = (hasKey d1 k || hasKey d2 k) := by
  induction d1 with
  | nil => simp [hasKey]
  | cons kv rest ih =>
      simp only [List.cons_append, hasKey]
      split <;> simp_all

theorem lookup_append (d1 d2 : Fields) (k : String) :
    lookupKey (d1 ++ d2) k =
      if hasKey d1 k then lookupKey d1 k else lookupKey d2 k := by
  induction d1 with
  | nil => simp [hasKey, lookupKey]
  | cons kv rest ih =>
      simp only [List.cons_append, hasKey, lookupKey]
      split <;> simp_all

theorem lookup_replaceKey_self {d : Fields} {k : String} (v : JsonValue)
    (h : hasKey d k = true) : lookupKey (replaceKey d k v) k = some v := by
  induction d with
  | nil => simp [hasKey] at h
  | cons kv rest ih =>
      simp only [hasKey, replaceKey] at *
      split at h
      · simp_all [lookupKey]
      · have := ih h
        simp_all [lookupKey]

theorem lookup_replaceKey_ne {k k2 : String} (d : Fields) (v : JsonValue)
    (h : k ≠ k2) : lookupKey (replaceKey d k v) k2 = lookupKey d k2 := by
  induction d with
  | nil => rfl
  | cons kv rest ih =>
      simp only [replaceKey, lookupKey]
      split
      · rename_i heq
        simp [lookupKey, h, heq, ih]
      · simp [lookupKey, ih]

theorem lookup_setKey_self (d : Fields) (k : String) (v : JsonValue) :
    lookupKey (setKey d k v) k = some v := by
  unfold setKey
  split
  · exact lookup_replaceKey_self v (by assumption)
  · rename_i h
    rw [lookup_append]
    simp [h, lookupKey]

theorem lookup_setKey_ne {k k2 : String} (d : Fields) (v : JsonValue)
    (h : k ≠ k2) : lookupKey (setKey d k v) k2 = lookupKey d k2 := by
  unfold setKey
  split
  · exact lookup_replaceKey_ne d v h
  · rw [lookup_append]
    split
    · rfl
    · rename_i hk
      simp only [Bool.not_eq_true] at hk
      simp [lookupKey, h, lookupKey_eq_none_of_hasKey_false hk]

/-! ### Lemmas about the missing-criterion repair loop -/

theorem hasKey_ensureScores (C : List String) (d : Fields) (k : String) :
    hasKey (ensureScores C d) k = (hasKey d k || decide (k ∈ C)) := by
  induction C generalizing d with
  | nil => simp [ensureScores]
  | cons c C ih =>
      show hasKey (ensureScores C _) k = _
      rw [ih]
      by_cases hc : hasKey d c
      · simp only [hc, if_true]
        by_cases hk : k = c
        · subst hk
          simp [hc, List.mem_cons]
        · simp [List.mem_cons, hk]
      · simp only [hc, Bool.false_eq_true, if_false, setKey,
          Bool.not_eq_true, hasKey_append]
        by_cases hk : k = c
        · subst hk
          simp [hasKey, List.mem_cons]
        · simp [hasKey, List.mem_cons, hk, Ne.symm hk]

theorem lookup_ensureScores (C : List String) (d : Fields) (k : String) :
    lookupKey (ensureScores C d) k =
      if hasKey d k then lookupKey d k
      else if k ∈ C then some (JsonValue.int 0) else Option.none := by
  induction C generalizing d with
  | nil =>
      simp only [ensureScores, List.foldl_nil, List.not_mem_nil, if_false]
      by_cases h : hasKey d k
      · simp [h]
      · simp [h, lookupKey_eq_none_of_hasKey_false (by simpa using h)]
  | cons c C ih =>
      show lookupKey (ensureScores C _) k = _
      rw [ih]
      by_cases hc : hasKey d c
      · simp only [hc, if_true]
        by_cases hk : k = c
        · subst hk
          simp [hc]
        · simp [List.mem_cons, hk]
      · simp only [hc, Bool.false_eq_true, if_false]
        by_cases hk : k = c
        · subst hk
          simp only [setKey, hc, Bool.false_eq_true, if_false,
            hasKey_append, lookup_append]
          have hnone := lookupKey_eq_none_of_hasKey_false (d := d) (k := k)
            (by simpa using hc)
          simp [hasKey, hc, hnone, lookupKey, List.mem_cons]
        · simp only [setKey, hc, Bool.false_eq_true, if_false,
            hasKey_append, lookup_append]
          simp only [hasKey, hk, Ne.symm hk, List.mem_cons, lookupKey,
            if_false, Bool.or_false, false_or]
          by_cases h : hasKey d k <;> simp [h, hk]

/-- Restricted to the stored criteria, the values after the
missing-criterion repair are the parsed reply's values, defaulted to 0:
exactly what `score_data.get(crit, 0)` reads. -/
theorem ensureScores_getD {C : List String} {R : Fields} {c : String}
    (hc : c ∈ C) :
    (lookupKey (ensureScores C R) c).getD (JsonValue.int 0) =
      (lookupKey R c).getD (JsonValue.int 0) := by
  rw [lookup_ensureScores]
  by_cases h : hasKey R c
  · simp [h]
  · have hnone := lookupKey_eq_none_of_hasKey_false (d := R) (k := c)
      (by simpa using h)
    simp [h, hc, hnone]

/-! ### Lemmas about the Python sum -/

theorem pySum_foldl_none (vs : List JsonValue) :
    vs.foldl (fun acc v => acc.bind (fun a => pyAdd a v)) Option.none =
      Option.none := by
  induction vs with
  | nil => rfl
  | cons v vs ih => simpa using ih

theorem pySum_of_mem_str {vs : List JsonValue} {s : String}
    (h : JsonValue.str s ∈ vs) : pySum vs = Option.none := by
  unfold pySum
  generalize some (0 : Int) = acc
  induction vs generalizing acc with
  | nil => simp at h
  | cons v vs ih =>
      rcases List.mem_cons.mp h with hv | hv
      · subst hv
        have : (acc.bind fun a => pyAdd a (JsonValue.str s)) = Option.none := by
          cases acc <;> simp [pyAdd]
        simp only [List.foldl_cons, this]
        exact pySum_foldl_none vs
      · exact ih hv _

/-! ### Lemmas about the candidate-name repair -/

theorem repairName_ok_cases {fn : String} {d d2 : Fields}
    (h : repairName fn d = .ok d2) :
    d2 = d ∨
      d2 = setKey d "Candidate Name" (JsonValue.str (splitext_root fn)) := by
  unfold repairName at h
  split at h
  · right
    exact (Except.ok.injEq _ _ ▸ h).symm ▸ rfl
  · rename_i s _
    split at h
    · right
      cases h
      rfl
    · left
      cases h
      rfl
  · cases h

theorem lookup_repairName_ne {fn : String} {d d2 : Fields} {k : String}
    (h : repairName fn d = .ok d2) (hk : k ≠ "Candidate Name") :
    lookupKey d2 k = lookupKey d k := by
  rcases repairName_ok_cases h with rfl | rfl
  · rfl
  · exact lookup_setKey_ne d _ (Ne.symm hk)

/-- The value the name repair leaves at `Candidate Name` when it
returns. -/
theorem repairName_lookup_self {fn : String} {d d2 : Fields}
    (h : repairName fn d = .ok d2) :
    lookupKey d2 "Candidate Name" =
        some (JsonValue.str (splitext_root fn)) ∨
      ∃ s, lookupKey d "Candidate Name" = some (JsonValue.str s) ∧
        pyStrip s ≠ "" ∧ lookupKey d2 "Candidate Name" =
          some (JsonValue.str s) := by
  unfold repairName at h
  split at h
  · left
    cases h
    exact lookup_setKey_self ..
  · rename_i s heq
    split at h
    · left
      cases h
      exact lookup_setKey_self ..
    · right
      cases h
      exact ⟨s, heq, by assumption, heq⟩
  · cases h

/-! ### Structural lemmas about the per-resume reply processing -/

theorem processReply_ok_elim {C : List String} {fn : String} {R : Fields}
    {r : Fields} (h : processReply C fn (some (JsonValue.dict R)) = .ok r) :
    ∃ d2 t, repairName fn (ensureScores C R) = .ok d2 ∧
      pySum (C.map (fun crit => (lookupKey d2 crit).getD (JsonValue.int 0))) =
        some t ∧
      r = setKey d2 "Total Score" (JsonValue.int t) := by
  simp only [processReply] at h
  split at h
  · cases h
  · rename_i d2 heq
    split at h
    · cases h
    · rename_i t hsum
      cases h
      exact ⟨d2, t, heq, hsum, rfl⟩

/-- A record is appended only when `Candidate Name` is not itself a
stored criterion: otherwise its value after the name repair is a string
(repaired or kept), and the Python `sum` over the criterion values
raises `TypeError`. -/
theorem processReply_ok_name_not_mem {C : List String} {fn : String}
    {R : Fields} {r : Fields}
    (h : processReply C fn (some (JsonValue.dict R)) = .ok r) :
    "Candidate Name" ∉ C := by
  intro hmem
  obtain ⟨d2, t, hrn, hsum, -⟩ := processReply_ok_elim h
  have hstr : ∃ s, lookupKey d2 "Candidate Name" =
      some (JsonValue.str s) := by
    rcases repairName_lookup_self hrn with h1 | ⟨s, -, -, h1⟩
    · exact ⟨_, h1⟩
    · exact ⟨s, h1⟩
  obtain ⟨s, hs⟩ := hstr
  have : JsonValue.str s ∈
      C.map (fun crit => (lookupKey d2 crit).getD (JsonValue.int 0)) := by
    have := List.mem_map_of_mem
      (fun crit => (lookupKey d2 crit).getD (JsonValue.int 0)) hmem
    simpa [hs] using this
  rw [pySum_of_mem_str this] at hsum
  cases hsum

/-- Restricted to the stored criteria, the values the total is summed
over are the parsed reply's values, defaulted to 0. -/
theorem processReply_ok_vals {C : List String} {fn : String} {R : Fields}
    {r d2 : Fields} (h : processReply C fn (some (JsonValue.dict R)) = .ok r)
    (hrn : repairName fn (ensureScores C R) = .ok d2) :
    C.map (fun crit => (lookupKey d2 crit).getD (JsonValue.int 0)) =
      C.map (fun crit => (lookupKey R crit).getD (JsonValue.int 0)) := by
  have hnm := processReply_ok_name_not_mem h
  refine List.map_congr_left (fun c hc => ?_)
  have hcn : c ≠ "Candidate Name" := fun hceq => hnm (hceq ▸ hc)
  rw [lookup_repairName_ne hrn hcn, ensureScores_getD hc]

/-! ### Structural lemmas about the scoring loop -/

theorem scoreAll_cons_ok {C : List String} {f : ResumeFile}
    {fs : List ResumeFile} {rs : List Fields}
    (h : (scoreAll C (f :: fs)).1 = .ok rs) :
    ∃ record records, (processResume C f).1 = .ok record ∧
      (scoreAll C fs).1 = .ok records ∧ rs = record :: records := by
  simp only [scoreAll] at h
  cases hp : processResume C f with
  | mk res evs =>
    rw [hp] at h
    cases res with
    | error e => simp at h
    | ok record =>
        cases hs : scoreAll C fs with
        | mk res2 evs2 =>
          rw [hs] at h
          cases res2 with
          | error e => simp at h
          | ok records =>
              simp only at h
              cases h
              exact ⟨record, records, by simp [hp], by simp [hs], rfl⟩

theorem scoreAll_ok_length {C : List String} {fs : List ResumeFile}
    {rs : List Fields} (h : (scoreAll C fs).1 = .ok rs) :
    rs.length = fs.length := by
  induction fs generalizing rs with
  | nil =>
      simp only [scoreAll] at h
      cases h
      rfl
  | cons f fs ih =>
      obtain ⟨record, records, -, hs, rfl⟩ := scoreAll_cons_ok h
      simp [ih hs]

theorem scoreAll_ok_get {C : List String} {fs : List ResumeFile}
    {rs : List Fields} (h : (scoreAll C fs).1 = .ok rs) :
    ∀ i (hi : i < fs.length) (hr : i < rs.length),
      (processResume C (fs.get ⟨i, hi⟩)).1 = .ok (rs.get ⟨i, hr⟩) := by
  induction fs generalizing rs with
  | nil => intro i hi _; simp at hi
  | cons f fs ih =>
      intro i hi hr
      obtain ⟨record, records, hp, hs, rfl⟩ := scoreAll_cons_ok h
      cases i with
      | zero => simpa using hp
      | succ n =>
          have hn : n < fs.length := by simpa using hi
          have hrn : n < records.length := by simpa using hr
          simpa using ih hs n hn hrn

/-- A batch containing a resume whose per-resume step fails never
produces a result list: the loop aborts with that error (or an earlier
one). -/
theorem scoreAll_no_ok_of_error {C : List String} {fs : List ResumeFile}
    {f : ResumeFile} {e : ScoreError}
    (hf : f ∈ fs) (he : (processResume C f).1 = .error e) :
    ∀ rs, (scoreAll C fs).1 ≠ .ok rs := by
  induction fs with
  | nil => simp at hf
  | cons g fs ih =>
      intro rs h
      obtain ⟨record, records, hp, hs, rfl⟩ := scoreAll_cons_ok h
      rcases List.mem_cons.mp hf with rfl | hf2
      · rw [he] at hp
        cases hp
      · exact ih hf2 records hs

/-- A scoring reply that does not decode to a JSON object always raises
inside the per-resume `try` block, yielding the HTTP 500 that names the
file. -/
theorem processReply_not_dict {C : List String} {fn : String}
    {q : Option JsonValue} (hq : ∀ d, q ≠ some (JsonValue.dict d)) :
    processReply C fn q = .error (.processingError fn) := by
  cases q with
  | none => rfl
  | some v =>
      cases v with
      | dict d => exact absurd rfl (hq d)
      | null => rfl
      | bool b => rfl
      | int n => rfl
      | str s => rfl
      | list xs => rfl

/-! ### Claim theorems -/

/-- C1: for every stored criteria list `C` and every scoring reply that
decodes to a JSON object `R`, the appended record's `Total Score` equals
the Python sum of the per-criterion values as they stand after the
missing-key repair — that is, `R`'s values at the criteria of `C`,
defaulted to `0` — so any `Total Score` key of `R` is never copied into
the total. -/
theorem total_score_recomputed (C : List String) (fn : String)
    (R r : Fields) (h : processReply C fn (some (JsonValue.dict R)) = .ok r) :
    ∃ t : Int,
      lookupKey r "Total Score" = some (JsonValue.int t) ∧
      pySum (C.map (fun crit => (lookupKey R crit).getD (JsonValue.int 0))) =
        some t := by
  obtain ⟨d2, t, hrn, hsum, rfl⟩ := processReply_ok_elim h
  refine ⟨t, lookup_setKey_self .., ?_⟩
  rw [← processReply_ok_vals h hrn]
  exact hsum

/-- Witness for C1, the spec's end-to-end scenario 2: criteria
`["Python", "SQL"]`, reply `{"Candidate Name": "", "Python": 4}`,
file `jane_doe.pdf`. -/
theorem total_score_recomputed_witness :
    ∃ t : Int,
      lookupKey [("Candidate Name", JsonValue.str "jane_doe"),
        ("Python", JsonValue.int 4), ("SQL", JsonValue.int 0),
        ("Total Score", JsonValue.int 4)] "Total Score" =
          some (JsonValue.int t) ∧
      pySum (["Python", "SQL"].map
        (fun crit => (lookupKey [("Candidate Name", JsonValue.str ""),
          ("Python", JsonValue.int 4)] crit).getD (JsonValue.int 0))) =
        some t :=
  total_score_recomputed ["Python", "SQL"] "jane_doe.pdf"
    [("Candidate Name", JsonValue.str ""), ("Python", JsonValue.int 4)]
    [("Candidate Name", JsonValue.str "jane_doe"),
      ("Python", JsonValue.int 4), ("SQL", JsonValue.int 0),
      ("Total Score", JsonValue.int 4)] (by rfl)

/-- C2 counterexample: with stored criteria `["A", "Total Score"]` and
reply `{"A": 2}`, the criterion `"Total Score"` is absent from the reply
but the appended record binds it to the recomputed total `2`, not to
`0`: the missing-key repair does write `0` there, but the total
recomputation then overwrites it. -/
theorem missing_criterion_zero_cex :
    processReply ["A", "Total Score"] "x.pdf"
        (some (JsonValue.dict [("A", JsonValue.int 2)])) =
      .ok [("A", JsonValue.int 2), ("Total Score", JsonValue.int 2),
        ("Candidate Name", JsonValue.str "x")] ∧
    hasKey [("A", JsonValue.int 2)] "Total Score" = false ∧
    lookupKey [("A", JsonValue.int 2), ("Total Score", JsonValue.int 2),
        ("Candidate Name", JsonValue.str "x")] "Total Score" ≠
      some (JsonValue.int 0) := by
  refine ⟨rfl, rfl, ?_⟩
  intro hcontra
  simp [lookupKey] at hcontra

/-- C2 (amended): every criterion of `C` absent from the reply object is
bound to `0` in the appended record, except a criterion that is the
literal string `"Total Score"`, whose repaired `0` is overwritten by the
recomputed total. -/
theorem missing_criterion_zero (C : List String) (fn : String)
    (R r : Fields) (c : String) (hc : c ∈ C) (habs : hasKey R c = false)
    (hts : c ≠ "Total Score")
    (h : processReply C fn (some (JsonValue.dict R)) = .ok r) :
    lookupKey r c = some (JsonValue.int 0) := by
  obtain ⟨d2, t, hrn, hsum, rfl⟩ := processReply_ok_elim h
  have hnm := processReply_ok_name_not_mem h
  have hcn : c ≠ "Candidate Name" := fun hceq => hnm (hceq ▸ hc)
  rw [lookup_setKey_ne _ _ (Ne.symm hts), lookup_repairName_ne hrn hcn,
    lookup_ensureScores]
  simp [habs, hc]

/-- Witness for the amended C2: criteria `["Python", "SQL"]`, reply
`{"Candidate Name": "Jo", "Python": 2}`; the missing criterion `SQL` is
scored 0. -/
theorem missing_criterion_zero_witness :
    lookupKey [("Candidate Name", JsonValue.str "Jo"),
      ("Python", JsonValue.int 2), ("SQL", JsonValue.int 0),
      ("Total Score", JsonValue.int 2)] "SQL" = some (JsonValue.int 0) :=
  missing_criterion_zero ["Python", "SQL"] "jo.pdf"
    [("Candidate Name", JsonValue.str "Jo"), ("Python", JsonValue.int 2)]
    [("Candidate Name", JsonValue.str "Jo"), ("Python", JsonValue.int 2),
      ("SQL", JsonValue.int 0), ("Total Score", JsonValue.int 2)]
    "SQL" (by simp) rfl (by decide) (by rfl)

/-- C3: when the reply object's `Candidate Name` is absent, or is a
string that is empty or whitespace-only, the appended record's
`Candidate Name` is the uploaded file's name with its extension removed
(`os.path.splitext(filename)[0]`). -/
theorem candidate_name_defaulted (C : List String) (fn : String)
    (R r : Fields)
    (hname : lookupKey R "Candidate Name" = Option.none ∨
      ∃ s, lookupKey R "Candidate Name" = some (JsonValue.str s) ∧
        pyStrip s = "")
    (h : processReply C fn (some (JsonValue.dict R)) = .ok r) :
    lookupKey r "Candidate Name" =
      some (JsonValue.str (splitext_root fn)) := by
  obtain ⟨d2, t, hrn, hsum, rfl⟩ := processReply_ok_elim h
  have hnm := processReply_ok_name_not_mem h
  have hTS : "Candidate Name" ≠ "Total Score" := by decide
  rw [lookup_setKey_ne _ _ (Ne.symm hTS)]
  have hd1 : lookupKey (ensureScores C R) "Candidate Name" =
      lookupKey R "Candidate Name" := by
    rw [lookup_ensureScores]
    by_cases hk : hasKey R "Candidate Name"
    · simp [hk]
    · simp [hk, hnm,
        lookupKey_eq_none_of_hasKey_false (by simpa using hk)]
  unfold repairName at hrn
  rw [hd1] at hrn
  rcases hname with hnone | ⟨s, hs, htrim⟩
  · rw [hnone] at hrn
    cases hrn
    exact lookup_setKey_self ..
  · rw [hs] at hrn
    have hrn2 : (Except.ok (setKey (ensureScores C R) "Candidate Name"
        (JsonValue.str (splitext_root fn))) : Except Unit Fields) =
        Except.ok d2 := by
      rw [← hrn]
      simp [htrim]
    cases hrn2
    exact lookup_setKey_self ..

/-- Witness for C3: reply `{"Candidate Name": "", "Python": 4}` for file
`jane_doe.pdf` yields candidate name `jane_doe`. -/
theorem candidate_name_defaulted_witness :
    lookupKey [("Candidate Name", JsonValue.str "jane_doe"),
      ("Python", JsonValue.int 4), ("SQL", JsonValue.int 0),
      ("Total Score", JsonValue.int 4)] "Candidate Name" =
      some (JsonValue.str (splitext_root "jane_doe.pdf")) :=
  candidate_name_defaulted ["Python", "SQL"] "jane_doe.pdf"
    [("Candidate Name", JsonValue.str ""), ("Python", JsonValue.int 4)]
    [("Candidate Name", JsonValue.str "jane_doe"),
      ("Python", JsonValue.int 4), ("SQL", JsonValue.int 0),
      ("Total Score", JsonValue.int 4)]
    (Or.inr ⟨"", rfl, by decide⟩) (by rfl)

/-- C4: scoring with the criteria slot unset (`None`) or holding the
empty list fails with the no-criteria client error (HTTP 400) and
performs no text extraction and no LLM call (empty event trace). -/
theorem no_criteria_fails_fast (st : Option (List String))
    (files : List ResumeFile) (h : st = Option.none ∨ st = some []) :
    score_resumes st files = (.error .noCriteria, []) ∧
      scoreStatusCode .noCriteria = 400 := by
  rcases h with rfl | rfl <;> exact ⟨rfl, rfl⟩

/-- Witness for C4: an unset store with one uploaded file. -/
theorem no_criteria_fails_fast_witness :
    score_resumes Option.none
        [⟨"a.pdf", "application/pdf", Except.ok "text", Option.none⟩] =
      (.error .noCriteria, []) ∧
    scoreStatusCode .noCriteria = 400 :=
  no_criteria_fails_fast Option.none
    [⟨"a.pdf", "application/pdf", Except.ok "text", Option.none⟩]
    (Or.inl rfl)

/-- C5: a fence-stripped LLM reply that does not decode to the expected
JSON shape always yields the invalid-model-output server error (HTTP
500).  For extraction (expected shape: a list) the store slot is left
unchanged and no criteria are returned; for scoring (expected shape: an
object) the error names the offending file, and a batch containing such
a resume never produces a result list, so no partial CSV exists. -/
theorem invalid_model_output_rejected (p q : Option JsonValue)
    (st : Option (List JsonValue)) (C : List String) (fn : String)
    (f : ResumeFile) (files : List ResumeFile) :
    ((∀ xs, p ≠ some (JsonValue.list xs)) →
      extract_criteria p st = (.error .invalidModelOutput, st) ∧
        extractStatusCode .invalidModelOutput = 500) ∧
    ((∀ d, q ≠ some (JsonValue.dict d)) →
      processReply C fn q = .error (.processingError fn) ∧
        scoreStatusCode (.processingError fn) = 500) ∧
    (f ∈ files → supportedType f.content_type = true →
      (∃ txt, f.extraction = .ok txt) →
      (∀ d, f.llmParsed ≠ some (JsonValue.dict d)) →
      ∀ rs, (scoreAll C files).1 ≠ .ok rs) := by
  refine ⟨?_, ?_, ?_⟩
  · intro hp
    refine ⟨?_, rfl⟩
    cases p with
    | none => rfl
    | some v =>
        cases v with
        | list xs => exact absurd rfl (hp xs)
        | null => rfl
        | bool b => rfl
        | int n => rfl
        | str s => rfl
        | dict d => rfl
  · intro hq
    exact ⟨processReply_not_dict hq, rfl⟩
  · rintro hf hsupp ⟨txt, hext⟩ hq rs
    have hpr : (processResume C f).1 = .error (.processingError f.filename) := by
      simp [processResume, hsupp, hext, processReply_not_dict hq]
    exact scoreAll_no_ok_of_error hf hpr rs

/-- Witness for C5: a reply decoding to a bare string for extraction and
to a bare number for scoring, and a one-file batch carrying the latter. -/
theorem invalid_model_output_rejected_witness :
    (extract_criteria (some (JsonValue.str "oops")) Option.none =
        (.error .invalidModelOutput, Option.none) ∧
      extractStatusCode .invalidModelOutput = 500) ∧
    (processReply ["A"] "r.pdf" (some (JsonValue.int 1)) =
        .error (.processingError "r.pdf") ∧
      scoreStatusCode (.processingError "r.pdf") = 500) ∧
    (scoreAll ["A"] [⟨"r.pdf", "application/pdf", Except.ok "txt",
        some (JsonValue.int 1)⟩]).1 ≠ .ok [] := by
  obtain ⟨h1, h2, h3⟩ := invalid_model_output_rejected
    (some (JsonValue.str "oops")) (some (JsonValue.int 1)) Option.none
    ["A"] "r.pdf"
    ⟨"r.pdf", "application/pdf", Except.ok "txt", some (JsonValue.int 1)⟩
    [⟨"r.pdf", "application/pdf", Except.ok "txt", some (JsonValue.int 1)⟩]
  refine ⟨h1 ?_, h2 ?_, h3 ?_ rfl ⟨"txt", rfl⟩ ?_ []⟩
  · intro xs hxs
    simp at hxs
  · intro d hd
    simp at hd
  · simp
  · intro d hd
    simp at hd

/-- C6 counterexample: the code never clamps or validates per-criterion
values.  With stored criteria `["A"]` and reply `{"A": 7}` the appended
record binds `"A"` to `7`, outside the 0-5 range. -/
theorem score_out_of_range_cex :
    processReply ["A"] "resume.pdf"
        (some (JsonValue.dict [("A", JsonValue.int 7)])) =
      .ok [("A", JsonValue.int 7),
        ("Candidate Name", JsonValue.str "resume"),
        ("Total Score", JsonValue.int 7)] ∧
    lookupKey [("A", JsonValue.int 7),
        ("Candidate Name", JsonValue.str "resume"),
        ("Total Score", JsonValue.int 7)] "A" = some (JsonValue.int 7) ∧
    ¬((7 : Int) ≤ 5) :=
  ⟨by rfl, rfl, by omega⟩

/-- C6 (amended): each stored criterion is bound in the appended record
to an integer in 0-5 provided the parsed reply only supplies integers in
0-5 at criteria keys (missing criteria become 0) and `"Total Score"` is
not itself a stored criterion; the code itself enforces no range. -/
theorem scores_in_range_if_model_in_range (C : List String) (fn : String)
    (R r : Fields) (hTS : "Total Score" ∉ C)
    (hR : ∀ c ∈ C, ∀ v, lookupKey R c = some v →
      ∃ n : Int, v = JsonValue.int n ∧ 0 ≤ n ∧ n ≤ 5)
    (h : processReply C fn (some (JsonValue.dict R)) = .ok r) :
    ∀ c ∈ C, ∃ n : Int, lookupKey r c = some (JsonValue.int n) ∧
      0 ≤ n ∧ n ≤ 5 := by
  intro c hc
  obtain ⟨d2, t, hrn, hsum, rfl⟩ := processReply_ok_elim h
  have hnm := processReply_ok_name_not_mem h
  have hcn : c ≠ "Candidate Name" := fun hceq => hnm (hceq ▸ hc)
  have hcts : c ≠ "Total Score" := fun hceq => hTS (hceq ▸ hc)
  rw [lookup_setKey_ne _ _ (Ne.symm hcts), lookup_repairName_ne hrn hcn,
    lookup_ensureScores]
  cases hv : lookupKey R c with
  | none =>
      have hk := hasKey_false_of_lookupKey_none hv
      exact ⟨0, by simp [hk, hc], by omega, by omega⟩
  | some v =>
      have hk := hasKey_true_of_lookupKey hv
      obtain ⟨n, rfl, h0, h5⟩ := hR c hc v hv
      exact ⟨n, by simp [hk, hv], h0, h5⟩

/-- Witness for the amended C6: criteria `["A"]`, reply `{"A": 3}`. -/
theorem scores_in_range_witness :
    ∃ n : Int, lookupKey [("A", JsonValue.int 3),
      ("Candidate Name", JsonValue.str "resume"),
      ("Total Score", JsonValue.int 3)] "A" = some (JsonValue.int n) ∧
      0 ≤ n ∧ n ≤ 5 :=
  scores_in_range_if_model_in_range ["A"] "resume.pdf"
    [("A", JsonValue.int 3)]
    [("A", JsonValue.int 3), ("Candidate Name", JsonValue.str "resume"),
      ("Total Score", JsonValue.int 3)]
    (by simp)
    (by
      intro c hc v hv
      simp only [List.mem_singleton] at hc
      subst hc
      simp [lookupKey] at hv
      subst hv
      exact ⟨3, rfl, by omega, by omega⟩)
    (by rfl) "A" (by simp)

/-- C7 counterexample: when `docx.Document` raises on the written
temporary file (for example on a corrupt upload), the `except` clause
re-raises without running `os.remove`, so `temp_uploaded.docx` persists
after the operation raises. -/
theorem docx_temp_file_cex :
    extract_text_from_docx (Except.error "File is not a zip file") =
      (Except.error
        "Failed to extract text from DOCX: File is not a zip file",
        true) := rfl

/-- C7 (amended): the temporary file is deleted before
`extract_text_from_docx` returns or raises whenever `docx.Document`
parses the written file (including the no-text failure path); it
persists when the parse itself raises. -/
theorem docx_temp_file_removed_on_parse_success (paras : List String) :
    (extract_text_from_docx (Except.ok paras)).2 = false := by
  simp only [extract_text_from_docx]
  split <;> rfl

/-- Witness for the amended C7: a one-paragraph document. -/
theorem docx_temp_file_removed_witness :
    (extract_text_from_docx (Except.ok ["hello"])).2 = false :=
  docx_temp_file_removed_on_parse_success ["hello"]

/-- C8: two successive successful extractions leave the store holding
exactly the second criteria list: last write wins. -/
theorem extraction_last_write_wins (p1 p2 : Option JsonValue)
    (st0 st1 st2 : Option (List JsonValue)) (A B : List JsonValue)
    (h1 : extract_criteria p1 st0 = (.ok A, st1))
    (h2 : extract_criteria p2 st1 = (.ok B, st2)) :
    st2 = some B := by
  cases p2 with
  | none => simp [extract_criteria] at h2
  | some v =>
      cases v with
      | list xs =>
          simp only [extract_criteria, Prod.mk.injEq, Except.ok.injEq] at h2
          obtain ⟨rfl, h⟩ := h2
          exact h.symm
      | null => simp [extract_criteria] at h2
      | bool b => simp [extract_criteria] at h2
      | int n => simp [extract_criteria] at h2
      | str s => simp [extract_criteria] at h2
      | dict d => simp [extract_criteria] at h2

/-- Witness for C8: extract `["Python"]`, then `["SQL"]`; the store
holds `["SQL"]`. -/
theorem extraction_last_write_wins_witness :
    (some [JsonValue.str "SQL"] : Option (List JsonValue)) =
      some [JsonValue.str "SQL"] :=
  extraction_last_write_wins
    (some (JsonValue.list [JsonValue.str "Python"]))
    (some (JsonValue.list [JsonValue.str "SQL"]))
    Option.none (some [JsonValue.str "Python"]) (some [JsonValue.str "SQL"])
    [JsonValue.str "Python"] [JsonValue.str "SQL"] rfl rfl

/-- C9: a successful scoring run over stored criteria `C` produces a
table whose single header row is `Candidate Name`, the criteria of `C`
in stored order, then `Total Score`, followed by one row per uploaded
resume in upload order (row `i` renders the record of file `i`), each
row holding exactly one cell per header column and no index column. -/
theorem csv_header_and_rows (C : List String) (files : List ResumeFile)
    (csv : CsvTable) (evs : List Event)
    (h : score_resumes (some C) files = (.ok csv, evs)) :
    ∃ results, (scoreAll C files).1 = .ok results ∧
      results.length = files.length ∧
      csv.header = "Candidate Name" :: (C ++ ["Total Score"]) ∧
      csv.rows = results.map (fun r =>
        ("Candidate Name" :: (C ++ ["Total Score"])).map
          (fun col => (lookupKey r col).getD JsonValue.null)) ∧
      (∀ row ∈ csv.rows, row.length = csv.header.length) ∧
      (∀ i (hi : i < files.length) (hr : i < results.length),
        (processResume C (files.get ⟨i, hi⟩)).1 =
          .ok (results.get ⟨i, hr⟩)) := by
  cases C with
  | nil => simp [score_resumes] at h
  | cons c0 C0 =>
      simp only [score_resumes] at h
      cases hs : scoreAll (c0 :: C0) files with
      | mk res evs2 =>
        rw [hs] at h
        cases res with
        | error e => simp at h
        | ok results =>
            simp only [Prod.mk.injEq, Except.ok.injEq] at h
            obtain ⟨hcsv, -⟩ := h
            subst hcsv
            have hok : (scoreAll (c0 :: C0) files).1 = .ok results := by
              rw [hs]
            refine ⟨results, rfl, scoreAll_ok_length hok, rfl, rfl, ?_,
              scoreAll_ok_get hok⟩
            intro row hrow
            obtain ⟨r, -, rfl⟩ := List.mem_map.mp hrow
            simp [toDataFrame]

/-- Witness for C9: one resume, criteria `["Python"]`, reply
`{"Candidate Name": "Jane", "Python": 5, "Total Score": 99}`; the total
is recomputed to 5 and the table has header plus one three-cell row. -/
theorem csv_header_and_rows_witness :
    ∃ results,
      (scoreAll ["Python"]
        [⟨"jane.pdf", "application/pdf", Except.ok "text",
          some (JsonValue.dict [("Candidate Name", JsonValue.str "Jane"),
            ("Python", JsonValue.int 5),
            ("Total Score", JsonValue.int 99)])⟩]).1 = .ok results ∧
      results.length = 1 ∧
      (CsvTable.mk ["Candidate Name", "Python", "Total Score"]
          [[JsonValue.str "Jane", JsonValue.int 5,
            JsonValue.int 5]]).header =
        "Candidate Name" :: (["Python"] ++ ["Total Score"]) ∧
      (CsvTable.mk ["Candidate Name", "Python", "Total Score"]
          [[JsonValue.str "Jane", JsonValue.int 5,
            JsonValue.int 5]]).rows = results.map (fun r =>
        ("Candidate Name" :: (["Python"] ++ ["Total Score"])).map
          (fun col => (lookupKey r col).getD JsonValue.null)) ∧
      (∀ row ∈ (CsvTable.mk ["Candidate Name", "Python", "Total Score"]
          [[JsonValue.str "Jane", JsonValue.int 5,
            JsonValue.int 5]]).rows,
        row.length =
          (CsvTable.mk ["Candidate Name", "Python", "Total Score"]
            [[JsonValue.str "Jane", JsonValue.int 5,
              JsonValue.int 5]]).header.length) ∧
      (∀ i (hi : i < ([⟨"jane.pdf", "application/pdf", Except.ok "text",
          some (JsonValue.dict [("Candidate Name", JsonValue.str "Jane"),
            ("Python", JsonValue.int 5),
            ("Total Score", JsonValue.int 99)])⟩] :
              List ResumeFile).length)
          (hr : i < results.length),
        (processResume ["Python"]
          (([⟨"jane.pdf", "application/pdf", Except.ok "text",
            some (JsonValue.dict [("Candidate Name", JsonValue.str "Jane"),
              ("Python", JsonValue.int 5),
              ("Total Score", JsonValue.int 99)])⟩] :
                List ResumeFile).get ⟨i, hi⟩)).1 =
          .ok (results.get ⟨i, hr⟩)) :=
  csv_header_and_rows ["Python"]
    [⟨"jane.pdf", "application/pdf", Except.ok "text",
      some (JsonValue.dict [("Candidate Name", JsonValue.str "Jane"),
        ("Python", JsonValue.int 5), ("Total Score", JsonValue.int 99)])⟩]
    (CsvTable.mk ["Candidate Name", "Python", "Total Score"]
      [[JsonValue.str "Jane", JsonValue.int 5, JsonValue.int 5]])
    [Event.extractTextCall "jane.pdf", Event.llmCall "jane.pdf"] (by rfl)

/-- C10: when the reply object's `Candidate Name` is present but bound
to a non-string value (JSON null, a number, a boolean, a list or an
object), the blank-name check calls `.strip()` on it and raises, so the
name repair is skipped and the request fails with the HTTP 500 naming
that resume file. -/
theorem nonstring_name_errors (C : List String) (fn : String) (R : Fields)
    (v : JsonValue) (hv : lookupKey R "Candidate Name" = some v)
    (hns : ∀ s, v ≠ JsonValue.str s) :
    processReply C fn (some (JsonValue.dict R)) =
        .error (.processingError fn) ∧
      scoreStatusCode (.processingError fn) = 500 := by
  refine ⟨?_, rfl⟩
  have hk := hasKey_true_of_lookupKey hv
  have hd1 : lookupKey (ensureScores C R) "Candidate Name" = some v := by
    rw [lookup_ensureScores]
    simp [hk, hv]
  have hrn : repairName fn (ensureScores C R) = .error () := by
    unfold repairName
    rw [hd1]
    cases v with
    | str s => exact absurd rfl (hns s)
    | null => rfl
    | bool b => rfl
    | int n => rfl
    | list xs => rfl
    | dict d => rfl
  simp only [processReply]
  rw [hrn]

/-- Witness for C10: reply `{"Candidate Name": null, "A": 1}` for file
`bob.docx`. -/
theorem nonstring_name_errors_witness :
    processReply ["A"] "bob.docx"
        (some (JsonValue.dict [("Candidate Name", JsonValue.null),
          ("A", JsonValue.int 1)])) =
        .error (.processingError "bob.docx") ∧
      scoreStatusCode (.processingError "bob.docx") = 500 :=
  nonstring_name_errors ["A"] "bob.docx"
    [("Candidate Name", JsonValue.null), ("A", JsonValue.int 1)]
    JsonValue.null rfl (fun s h => JsonValue.noConfusion h)

end ResumeAPI
